import Mathlib

/-
Verification of the sparse Merkle tree implemented in the
`multilevelmktree` package of the merkle-tree-generation repository.

The Poseidon hash is an external collision-resistant primitive; following
the specification it is treated as a black box, modelled here by free
constructors of the field-element type (so distinct argument lists give
distinct results, and nothing else is assumed about it).  The code only
ever hashes one-element or two-element inputs, so `poseidon.Hash` applied
to `[x]` is modelled as `FE.hash1 x` and applied to `[x, y]` as
`FE.hash2 x y`.
-/

namespace SMT

/-- Field elements: arbitrary-precision integers (`big.Int` values such as
inserted leaf values) together with outputs of the Poseidon hash on
one-element and two-element inputs, modelled as free constructors. -/
inductive FE where
  | ofInt : Int → FE
  | hash1 : FE → FE
  | hash2 : FE → FE → FE
deriving DecidableEq, Repr

/-- `var zeroLeaf, _ = poseidon.Hash([]*big.Int{big.NewInt(0)})`. -/
def zeroLeaf : FE := FE.hash1 (FE.ofInt 0)

/-- `getHashEmptyForDepth` from the source: starting from `zeroLeaf`,
iterate `h = poseidon.Hash([]*big.Int{h, h})` exactly `depth` times. -/
def getHashEmptyForDepth (depth : Nat) : FE :=
  (fun h => FE.hash2 h h)^[depth] zeroLeaf

/-- `MerkleNode` from the source: `Left`/`Right` are nilable pointers
(`Option`), `Data` is the node's commitment. -/
inductive MerkleNode where
  | node (left right : Option MerkleNode) (data : FE)
deriving Repr

def MerkleNode.left : MerkleNode → Option MerkleNode
  | .node l _ _ => l

def MerkleNode.right : MerkleNode → Option MerkleNode
  | .node _ r _ => r

def MerkleNode.data : MerkleNode → FE
  | .node _ _ d => d

theorem MerkleNode.left_mk (l r : Option MerkleNode) (dt : FE) :
    (MerkleNode.node l r dt).left = l := rfl

theorem MerkleNode.right_mk (l r : Option MerkleNode) (dt : FE) :
    (MerkleNode.node l r dt).right = r := rfl

theorem MerkleNode.data_mk (l r : Option MerkleNode) (dt : FE) :
    (MerkleNode.node l r dt).data = dt := rfl

/-- `MerklePathItem` from the source. -/
structure MerklePathItem where
  siblingHash : FE
  isRight : Bool
deriving DecidableEq, Repr

/-- `SparseMerkleTree` from the source.  The Go `map[string]*big.Int` of
leaves is modelled as an association list with overwrite-by-prepend
semantics; `lookupLeaf` below gives the map lookup. -/
structure SparseMerkleTree where
  root : MerkleNode
  depth : Nat
  leaves : List (List Char × FE)

/-- Lookup in the leaves map (first matching binding wins, matching the
overwrite semantics of the Go map together with prepend-on-insert). -/
def lookupLeaf : List (List Char × FE) → List Char → Option FE
  | [], _ => none
  | (k, v) :: rest, key => if key = k then some v else lookupLeaf rest key

/-- Single-character `strconv.Atoi` with the error ignored, as the source
does: a decimal digit parses to its value, anything else leaves the
zero value. -/
def atoiChar (c : Char) : Nat :=
  if c.isDigit then c.toNat - 48 else 0

/-- `getPathBit` from the source.  The Go code returns `0` for an empty
key, and otherwise slices `key[depth : depth+1]`, which panics when
`depth >= len(key)`; the panic is modelled as `none`. -/
def getPathBit (key : List Char) (depth : Nat) : Option Nat :=
  if key.length = 0 then some 0
  else if h : depth < key.length then some (atoiChar (key.get ⟨depth, h⟩))
  else none

/-- `getLeftChild` from the source: materializes a childless node whose
data is `getHashEmptyForDepth depth` when the left pointer is nil.  Note
the caller passes the child's *level*, not its height. -/
def MerkleNode.getLeftChild (n : MerkleNode) (depth : Nat) : MerkleNode :=
  match n.left with
  | none => .node none none (getHashEmptyForDepth depth)
  | some l => l

/-- `getRightChild` from the source. -/
def MerkleNode.getRightChild (n : MerkleNode) (depth : Nat) : MerkleNode :=
  match n.right with
  | none => .node none none (getHashEmptyForDepth depth)
  | some r => r

/-- `hashChildren` from the source: a nil child contributes
`getHashEmptyForDepth (depth - 1)` (here `depth` is the parent's height). -/
def hashChildren (left right : Option MerkleNode) (depth : Nat) : FE :=
  let leftData := match left with
    | none => getHashEmptyForDepth (depth - 1)
    | some l => l.data
  let rightData := match right with
    | none => getHashEmptyForDepth (depth - 1)
    | some r => r.data
  FE.hash2 leftData rightData

/-- `insertIntoNode` from the source.  The Go recursion carries
`(depth, maxDepth)` and terminates because `maxDepth - depth` shrinks;
here the pair is carried as `depth` plus `remaining = maxDepth - depth`,
so `getHashEmptyForDepth (maxDepth - depth)` becomes
`getHashEmptyForDepth remaining` and the `hashChildren` height argument
`maxDepth - depth` likewise.  A `none` result models the Go panic inside
`getPathBit` (string slice out of range) on a too-short key. -/
def insertIntoNode (key : List Char) (value : FE) :
    Option MerkleNode → Nat → Nat → Option MerkleNode
  | _, _, 0 => some (.node none none value)
  | node, depth, remaining + 1 =>
    let n := node.getD (.node none none (getHashEmptyForDepth (remaining + 1)))
    match getPathBit key depth with
    | none => none
    | some pathBit =>
      if pathBit = 0 then
        match insertIntoNode key value (some (n.getLeftChild (depth + 1)))
            (depth + 1) remaining with
        | none => none
        | some newLeft =>
          some (.node (some newLeft) n.right
            (hashChildren (some newLeft) n.right (remaining + 1)))
      else
        match insertIntoNode key value (some (n.getRightChild (depth + 1)))
            (depth + 1) remaining with
        | none => none
        | some newRight =>
          some (.node n.left (some newRight)
            (hashChildren n.left (some newRight) (remaining + 1)))

/-- `NewSparseMerkleTree` from the source. -/
def NewSparseMerkleTree (depth : Nat) : SparseMerkleTree :=
  { root := .node none none (getHashEmptyForDepth depth)
    depth := depth
    leaves := [] }

/-- `Insert` from the source: records `leaves[key] = value` and replaces
the root with the rebuilt path.  A panic during `insertIntoNode` is
modelled as `none` (the Go program dies before the tree is observable). -/
def Insert (smt : SparseMerkleTree) (key : List Char) (value : FE) :
    Option SparseMerkleTree :=
  match insertIntoNode key value (some smt.root) 0 smt.depth with
  | none => none
  | some r => some { root := r, depth := smt.depth, leaves := (key, value) :: smt.leaves }

/-- The loop body of `GenerateMerklePath`, collecting items root-first:
at each level the sibling is the *other* child (materialized via
`getLeftChild`/`getRightChild` with the child's level as argument when
virtual) and the flag marks the side the sibling is on. -/
def generatePathLoop (key : List Char) :
    MerkleNode → Nat → Nat → Option (List MerklePathItem)
  | _, _, 0 => some []
  | current, depth, k + 1 =>
    match getPathBit key depth with
    | none => none
    | some pathBit =>
      if pathBit = 0 then
        match generatePathLoop key (current.getLeftChild (depth + 1)) (depth + 1) k with
        | none => none
        | some rest =>
          some (⟨(current.getRightChild (depth + 1)).data, true⟩ :: rest)
      else
        match generatePathLoop key (current.getRightChild (depth + 1)) (depth + 1) k with
        | none => none
        | some rest =>
          some (⟨(current.getLeftChild (depth + 1)).data, false⟩ :: rest)

/-- `GenerateMerklePath` from the source: a key absent from the leaves
map yields the `fmt.Errorf` error; otherwise the walk collects one item
per level and the list is reversed to leaf-to-root order.  The outer
`Option` models the (unreachable for API-built trees) Go panic. -/
def GenerateMerklePath (smt : SparseMerkleTree) (key : List Char) :
    Option (Except String (List MerklePathItem)) :=
  match lookupLeaf smt.leaves key with
  | none => some (Except.error ("no leaf exists at key: " ++ String.mk key))
  | some _ =>
    match generatePathLoop key smt.root 0 smt.depth with
    | none => none
    | some path => some (Except.ok path.reverse)

/-- The loop of `VerifyMerklePath`: fold the path items into the running
hash, sibling on the right or on the left according to the flag. -/
def verifyLoop : FE → List MerklePathItem → FE
  | currentHash, [] => currentHash
  | currentHash, item :: rest =>
    verifyLoop
      (if item.isRight then FE.hash2 currentHash item.siblingHash
       else FE.hash2 item.siblingHash currentHash) rest

/-- `VerifyMerklePath` from the source: pure function of its three
arguments. -/
def VerifyMerklePath (leafHash : FE) (path : List MerklePathItem)
    (expectedRoot : FE) : Bool :=
  verifyLoop leafHash path == expectedRoot

/-! ### Auxiliary definitions for stating and proving the claims -/

/-- Insert a list of key/value pairs in order (test-harness helper). -/
def insertAll (t : SparseMerkleTree) : List (List Char × FE) → Option SparseMerkleTree
  | [] => some t
  | (k, v) :: rest =>
    match Insert t k v with
    | none => none
    | some u => insertAll u rest

/-- Build a fresh tree of depth `D`, insert one key, generate its path and
verify it against the resulting root: the round-trip scenario of the spec.
`some b` means every step succeeded and verification returned `b`. -/
def roundTripOnce (D : Nat) (key : List Char) (v : FE) : Option Bool :=
  match Insert (NewSparseMerkleTree D) key v with
  | none => none
  | some t =>
    match GenerateMerklePath t key with
    | some (Except.ok p) => some (VerifyMerklePath v p t.root.data)
    | _ => none

/-- Insert into a fresh tree and return the generated path for the key. -/
def pathOfOne (D : Nat) (key : List Char) (v : FE) : Option (List MerklePathItem) :=
  match Insert (NewSparseMerkleTree D) key v with
  | none => none
  | some t =>
    match GenerateMerklePath t key with
    | some (Except.ok p) => some p
    | _ => none

/-- Walk the materialized tree by the key's path bits: `none` when a node
on the way (or the final node) is not materialized. -/
def followBits (key : List Char) : MerkleNode → Nat → Nat → Option MerkleNode
  | n, _, 0 => some n
  | n, d, k + 1 =>
    match getPathBit key d with
    | none => none
    | some b =>
      if b = 0 then
        match n.left with
        | none => none
        | some l => followBits key l (d + 1) k
      else
        match n.right with
        | none => none
        | some r => followBits key r (d + 1) k

/-! ### Basic lemmas -/

theorem getHashEmptyForDepth_zero : getHashEmptyForDepth 0 = zeroLeaf := rfl

theorem getHashEmptyForDepth_succ (d : Nat) :
    getHashEmptyForDepth (d + 1) =
      FE.hash2 (getHashEmptyForDepth d) (getHashEmptyForDepth d) := by
  unfold getHashEmptyForDepth
  rw [Function.iterate_succ_apply']

theorem FE.ne_hash1_self (v : FE) : v ≠ FE.hash1 v := by
  induction v with
  | ofInt n => simp
  | hash1 a ih =>
      intro h
      exact ih (FE.hash1.injEq .. ▸ h)
  | hash2 a b iha ihb => simp

theorem getPathBit_of_lt (key : List Char) (d : Nat) (h : d < key.length) :
    getPathBit key d = some (atoiChar (key.get ⟨d, h⟩)) := by
  unfold getPathBit
  rw [if_neg (by omega), dif_pos h]

theorem verifyLoop_eq_foldl (path : List MerklePathItem) (cur : FE) :
    verifyLoop cur path =
      path.foldl
        (fun current item =>
          if item.isRight then FE.hash2 current item.siblingHash
          else FE.hash2 item.siblingHash current) cur := by
  induction path generalizing cur with
  | nil => rfl
  | cons item rest ih => simp [verifyLoop, List.foldl, ih]

/-! ### Claim theorems: constructors, empty hashes, verification -/

/-- C4: `getHashEmptyForDepth` satisfies `EmptyHash(0) = H([0])` and
`EmptyHash(d) = H([EmptyHash(d-1), EmptyHash(d-1)])` for `d > 0`; being a
pure function of `d`, every call with the same `d` returns the same
value. -/
theorem c4_empty_hash_recurrence :
    getHashEmptyForDepth 0 = FE.hash1 (FE.ofInt 0) ∧
    ∀ d : Nat,
      getHashEmptyForDepth (d + 1) =
        FE.hash2 (getHashEmptyForDepth d) (getHashEmptyForDepth d) :=
  ⟨rfl, getHashEmptyForDepth_succ⟩

/-- C5: for every positive depth `D`, `NewSparseMerkleTree D` has a root
node present with commitment `EmptyHash(D)` and no materialized children
(so no leaf node exists), and its key-to-value mapping is empty. -/
theorem c5_new_tree_spec (D : Nat) (h : 0 < D) :
    (NewSparseMerkleTree D).root =
      MerkleNode.node none none (getHashEmptyForDepth D) ∧
    (NewSparseMerkleTree D).depth = D ∧
    (NewSparseMerkleTree D).leaves = [] ∧
    ∀ k, lookupLeaf (NewSparseMerkleTree D).leaves k = none :=
  ⟨rfl, rfl, rfl, fun _ => rfl⟩

theorem c5_new_tree_spec_witness :
    0 < 2 ∧
    ((NewSparseMerkleTree 2).root =
      MerkleNode.node none none (getHashEmptyForDepth 2) ∧
    (NewSparseMerkleTree 2).depth = 2 ∧
    (NewSparseMerkleTree 2).leaves = [] ∧
    ∀ k, lookupLeaf (NewSparseMerkleTree 2).leaves k = none) :=
  ⟨by decide, c5_new_tree_spec 2 (by decide)⟩

/-- Definition following the words of spec §4.5: starting from
`current = leaf_value`, fold over the path items in order, hashing
`[current, sibling]` when the flag marks sibling-on-the-right and
`[sibling, current]` otherwise. -/
def verifySpecFold (leafValue : FE) (path : List MerklePathItem) : FE :=
  path.foldl
    (fun current item =>
      if item.isRight then FE.hash2 current item.siblingHash
      else FE.hash2 item.siblingHash current) leafValue

/-- C8: `VerifyMerklePath leaf path root` is a pure function of its three
arguments (it is a plain function, with no tree argument) and returns
`true` exactly when the spec's fold over the path items, started at the
leaf value, reaches `root`. -/
theorem c8_verify_is_pure_fold (leafValue : FE) (path : List MerklePathItem)
    (expectedRoot : FE) :
    VerifyMerklePath leafValue path expectedRoot = true ↔
      verifySpecFold leafValue path = expectedRoot := by
  unfold VerifyMerklePath verifySpecFold
  rw [verifyLoop_eq_foldl, beq_iff_eq]

/-- C6: `GenerateMerklePath` returns the "no leaf exists" error exactly
when the key has no entry in the leaves mapping; in particular a
never-inserted key always gets the error and never a path. -/
theorem c6_generate_not_found_iff (smt : SparseMerkleTree) (key : List Char) :
    GenerateMerklePath smt key =
        some (Except.error ("no leaf exists at key: " ++ String.mk key)) ↔
      lookupLeaf smt.leaves key = none := by
  unfold GenerateMerklePath
  cases h : lookupLeaf smt.leaves key with
  | none => simp
  | some v =>
    cases hp : generatePathLoop key smt.root 0 smt.depth with
    | none => simp
    | some p => simp

/-! ### Concrete evaluations: the virtual-sibling height bug and missing
key validation -/

/-- C1: the round-trip property fails on the code.  Inserting key "00"
with value 5 into a fresh depth-2 tree, generating its Merkle path and
verifying it against the tree's own root returns `false`: at the leaf
level the virtual sibling is recorded as `getHashEmptyForDepth 2`
(`getRightChild` is passed the child's level) instead of the
empty-leaf hash `getHashEmptyForDepth 0` that `hashChildren` used when
computing the root. -/
theorem c1_round_trip_fails :
    roundTripOnce 2 ['0', '0'] (FE.ofInt 5) = some false := by decide

/-- C2: malformed keys are not rejected.  On a depth-2 tree, the key
"21" (non-binary character) is accepted by `Insert`: the insertion
succeeds, records the value under "21" in the leaves map, and misreads
the character '2' as "go right", producing exactly the root that key
"11" produces; the over-length key "001" is also accepted, silently
truncated to its first two characters (same root as "00"). -/
theorem c2_insert_accepts_malformed_key :
    (Insert (NewSparseMerkleTree 2) ['2', '1'] (FE.ofInt 7)).isSome = true ∧
    (Insert (NewSparseMerkleTree 2) ['2', '1'] (FE.ofInt 7)).map
        (fun t => t.root.data) =
      (Insert (NewSparseMerkleTree 2) ['1', '1'] (FE.ofInt 7)).map
        (fun t => t.root.data) ∧
    (Insert (NewSparseMerkleTree 2) ['2', '1'] (FE.ofInt 7)).map
        (fun t => lookupLeaf t.leaves ['2', '1']) =
      some (some (FE.ofInt 7)) ∧
    (Insert (NewSparseMerkleTree 2) ['0', '0', '1'] (FE.ofInt 7)).map
        (fun t => t.root.data) =
      (Insert (NewSparseMerkleTree 2) ['0', '0'] (FE.ofInt 7)).map
        (fun t => t.root.data) ∧
    ((Insert (NewSparseMerkleTree 2) ['2', '1'] (FE.ofInt 7)).bind
        (fun t => GenerateMerklePath t ['2', '1'])).map
        (fun e => match e with
          | Except.ok p => some p.length
          | Except.error _ => none) = some (some 2) := by decide

/-- C7 counterexample: the claim says a virtual sibling is recorded as
the empty-subtree hash *for that height*.  Inserting "00" into a fresh
depth-2 tree, the generated path's leaf-adjacent item (index 0) holds
`getHashEmptyForDepth 2` — the code passes the child's level to
`getRightChild` — whereas the sibling of the leaf is a virtual subtree
of height 0, whose empty hash `getHashEmptyForDepth 0` is different. -/
theorem c7_virtual_sibling_counterexample :
    (pathOfOne 2 ['0', '0'] (FE.ofInt 5)).map
        (fun p => p.map (fun i => i.siblingHash)) =
      some [getHashEmptyForDepth 2, getHashEmptyForDepth 1] ∧
    getHashEmptyForDepth 2 ≠ getHashEmptyForDepth 0 := by decide

/-- C9 counterexample: after inserting ("00", 5) and then ("01", 6),
key "01" (distinct from "00", both of length 2) is previously inserted
with value 6, yet re-inserting ("00", 5) leaves the root commitment
unchanged — the claim that inserting into `k1` always changes the root
is false. -/
theorem c9_reinsert_same_root :
    (insertAll (NewSparseMerkleTree 2)
        [(['0', '0'], FE.ofInt 5), (['0', '1'], FE.ofInt 6)]).map
        (fun t => lookupLeaf t.leaves ['0', '1']) = some (some (FE.ofInt 6)) ∧
    ((insertAll (NewSparseMerkleTree 2)
        [(['0', '0'], FE.ofInt 5), (['0', '1'], FE.ofInt 6)]).bind
        (fun t => Insert t ['0', '0'] (FE.ofInt 5))).map (fun t => t.root.data) =
      (insertAll (NewSparseMerkleTree 2)
        [(['0', '0'], FE.ofInt 5), (['0', '1'], FE.ofInt 6)]).map
        (fun t => t.root.data) := by decide

/-! ### Insertion reaches a raw-value leaf (C3) -/

theorem insertIntoNode_follow (key : List Char) (v : FE) (r : Nat) :
    ∀ (o : Option MerkleNode) (d : Nat),
      (∀ i, i < r → (getPathBit key (d + i)).isSome) →
      ∃ n', insertIntoNode key v o d r = some n' ∧
        followBits key n' d r = some (MerkleNode.node none none v) := by
  induction r with
  | zero => exact fun o d _ => ⟨_, rfl, rfl⟩
  | succ r ih =>
    intro o d hbits
    obtain ⟨b, hb⟩ :=
      Option.isSome_iff_exists.mp (by simpa using hbits 0 (Nat.succ_pos r))
    have hshift : ∀ i, i < r → (getPathBit key (d + 1 + i)).isSome := fun i hi => by
      have := hbits (i + 1) (by omega)
      rwa [show d + (i + 1) = d + 1 + i by omega] at this
    set n : MerkleNode :=
      o.getD (.node none none (getHashEmptyForDepth (r + 1))) with hn
    by_cases hb0 : b = 0
    · obtain ⟨nl, hins, hfol⟩ := ih (some (n.getLeftChild (d + 1))) (d + 1) hshift
      refine ⟨MerkleNode.node (some nl) n.right
        (hashChildren (some nl) n.right (r + 1)), ?_, ?_⟩
      · simp only [insertIntoNode, hb, hb0, ← hn, hins, if_true]
      · simp [followBits, hb, hb0, MerkleNode.left, hfol]
    · obtain ⟨nr, hins, hfol⟩ := ih (some (n.getRightChild (d + 1))) (d + 1) hshift
      refine ⟨MerkleNode.node n.left (some nr)
        (hashChildren n.left (some nr) (r + 1)), ?_, ?_⟩
      · simp only [insertIntoNode, hb, hb0, ← hn, hins, if_false]
      · simp [followBits, hb, hb0, MerkleNode.right, hfol]

/-- C3: inserting a valid key of length equal to the tree's depth makes
the leaf reached by following the key's bits commit to the raw value `v`
itself — and `v` is never equal to `H([v])`, so the inserted-leaf
convention indeed diverges from the `H([0])` convention for absent
leaves. -/
theorem c3_insert_leaf_raw_value (smt : SparseMerkleTree) (key : List Char)
    (v : FE) (hlen : key.length = smt.depth)
    (hbin : ∀ c ∈ key, c = '0' ∨ c = '1') :
    ∃ t', Insert smt key v = some t' ∧
      followBits key t'.root 0 smt.depth =
        some (MerkleNode.node none none v) ∧
      v ≠ FE.hash1 v := by
  have hbits : ∀ i, i < smt.depth → (getPathBit key (0 + i)).isSome := by
    intro i hi
    rw [getPathBit_of_lt key (0 + i) (by omega)]
    exact rfl
  obtain ⟨n', hins, hfol⟩ :=
    insertIntoNode_follow key v smt.depth (some smt.root) 0 hbits
  refine ⟨⟨n', smt.depth, (key, v) :: smt.leaves⟩, ?_, ?_, FE.ne_hash1_self v⟩
  · unfold Insert
    rw [hins]
  · exact hfol

theorem c3_insert_leaf_raw_value_witness :
    ((['0', '1'] : List Char).length = (NewSparseMerkleTree 2).depth ∧
      ∀ c ∈ (['0', '1'] : List Char), c = '0' ∨ c = '1') ∧
    ∃ t', Insert (NewSparseMerkleTree 2) ['0', '1'] (FE.ofInt 7) = some t' ∧
      followBits ['0', '1'] t'.root 0 (NewSparseMerkleTree 2).depth =
        some (MerkleNode.node none none (FE.ofInt 7)) ∧
      FE.ofInt 7 ≠ FE.hash1 (FE.ofInt 7) :=
  ⟨⟨by decide, by decide⟩,
    c3_insert_leaf_raw_value (NewSparseMerkleTree 2) ['0', '1'] (FE.ofInt 7)
      (by decide) (by decide)⟩

/-! ### Path structure (C7) -/

/-- The walk `GenerateMerklePath` performs: from a node, follow the key's
path bits for a number of levels, materializing virtual children the way
`getLeftChild`/`getRightChild` do (with the child's level as the
empty-hash argument). -/
def walkTo (key : List Char) : MerkleNode → Nat → Nat → Option MerkleNode
  | n, _, 0 => some n
  | n, d, k + 1 =>
    match getPathBit key d with
    | none => none
    | some b =>
      if b = 0 then walkTo key (n.getLeftChild (d + 1)) (d + 1) k
      else walkTo key (n.getRightChild (d + 1)) (d + 1) k

theorem list_get_reverse_eq {α : Type} (l : List α) (i : Nat)
    (hi : i < l.reverse.length) (j : Nat) (hj : j < l.length)
    (h : j = l.length - 1 - i) : l.reverse.get ⟨i, hi⟩ = l.get ⟨j, hj⟩ := by
  subst h
  simp [List.get_eq_getElem, List.getElem_reverse]

theorem generatePathLoop_spec (key : List Char) (k : Nat) :
    ∀ (cur : MerkleNode) (d : Nat),
      (∀ i, i < k → (getPathBit key (d + i)).isSome) →
      ∃ l, generatePathLoop key cur d k = some l ∧ l.length = k ∧
        ∀ j (hj : j < l.length), ∃ c b,
          walkTo key cur d j = some c ∧
          getPathBit key (d + j) = some b ∧
          l.get ⟨j, hj⟩ =
            (if b = 0 then MerklePathItem.mk ((c.getRightChild (d + j + 1)).data) true
             else MerklePathItem.mk ((c.getLeftChild (d + j + 1)).data) false) := by
  induction k with
  | zero => exact fun cur d _ => ⟨[], rfl, rfl, fun j hj => absurd hj (by simp)⟩
  | succ k ih =>
    intro cur d hbits
    obtain ⟨b, hb⟩ :=
      Option.isSome_iff_exists.mp (by simpa using hbits 0 (Nat.succ_pos k))
    have hshift : ∀ i, i < k → (getPathBit key (d + 1 + i)).isSome := fun i hi => by
      have := hbits (i + 1) (by omega)
      rwa [show d + (i + 1) = d + 1 + i by omega] at this
    by_cases hb0 : b = 0
    · obtain ⟨rest, hloop, hlen, hitems⟩ := ih (cur.getLeftChild (d + 1)) (d + 1) hshift
      refine ⟨MerklePathItem.mk ((cur.getRightChild (d + 1)).data) true :: rest,
        ?_, by simp [hlen], ?_⟩
      · simp only [generatePathLoop, hb, hb0, hloop, if_true]
      · intro j hj
        match j with
        | 0 =>
          refine ⟨cur, b, rfl, by simpa using hb, ?_⟩
          simp [hb0]
        | j + 1 =>
          obtain ⟨c, b', hwalk, hbit, hget⟩ := hitems j (by simpa using hj)
          refine ⟨c, b', ?_, ?_, ?_⟩
          · simp only [walkTo, hb, hb0, if_true]
            exact hwalk
          · rwa [show d + (j + 1) = d + 1 + j by omega]
          · rw [show d + (j + 1) + 1 = d + 1 + j + 1 by omega]
            simpa using hget
    · obtain ⟨rest, hloop, hlen, hitems⟩ := ih (cur.getRightChild (d + 1)) (d + 1) hshift
      refine ⟨MerklePathItem.mk ((cur.getLeftChild (d + 1)).data) false :: rest,
        ?_, by simp [hlen], ?_⟩
      · simp only [generatePathLoop, hb, hb0, hloop, if_false]
      · intro j hj
        match j with
        | 0 =>
          refine ⟨cur, b, rfl, by simpa using hb, ?_⟩
          simp [hb0]
        | j + 1 =>
          obtain ⟨c, b', hwalk, hbit, hget⟩ := hitems j (by simpa using hj)
          refine ⟨c, b', ?_, ?_, ?_⟩
          · simp only [walkTo, hb, hb0, if_false]
            exact hwalk
          · rwa [show d + (j + 1) = d + 1 + j by omega]
          · rw [show d + (j + 1) + 1 = d + 1 + j + 1 by omega]
            simpa using hget

/-- C7 (amended): for every key of length `D` present in the leaves map,
`GenerateMerklePath` returns exactly `D` items ordered leaf-to-root:
item `i` stems from level `D - 1 - i` of the walk (item `0` adjacent to
the leaf, item `D - 1` adjacent to the root); at each level, path bit 0
records the right child's commitment with the flag marking
sibling-on-the-right, and path bit 1 the left child's commitment with
the flag marking sibling-on-the-left — where a virtual child's
commitment is materialized as `getHashEmptyForDepth` of the child's
*level* `D - i` (not of its height `i`, as the original claim stated). -/
theorem c7_path_structure_amended (smt : SparseMerkleTree) (key : List Char)
    (w : FE) (hlen : key.length = smt.depth)
    (hfound : lookupLeaf smt.leaves key = some w) :
    ∃ p, GenerateMerklePath smt key = some (Except.ok p) ∧
      p.length = smt.depth ∧
      ∀ i (hi : i < p.length), ∃ c b,
        walkTo key smt.root 0 (smt.depth - 1 - i) = some c ∧
        getPathBit key (smt.depth - 1 - i) = some b ∧
        p.get ⟨i, hi⟩ =
          (if b = 0 then
            MerklePathItem.mk ((c.getRightChild (smt.depth - i)).data) true
           else
            MerklePathItem.mk ((c.getLeftChild (smt.depth - i)).data) false) := by
  have hbits : ∀ i, i < smt.depth → (getPathBit key (0 + i)).isSome := by
    intro i hi
    rw [getPathBit_of_lt key (0 + i) (by omega)]
    exact rfl
  obtain ⟨l, hloop, hlength, hitems⟩ :=
    generatePathLoop_spec key smt.depth smt.root 0 hbits
  refine ⟨l.reverse, ?_, by simpa using hlength, ?_⟩
  · unfold GenerateMerklePath
    rw [hfound, hloop]
  · intro i hi
    have hi' : i < smt.depth := by simpa [hlength] using hi
    have hj : smt.depth - 1 - i < l.length := by omega
    obtain ⟨c, b, hwalk, hbit, hget⟩ := hitems (smt.depth - 1 - i) hj
    refine ⟨c, b, ?_, ?_, ?_⟩
    · simpa using hwalk
    · rwa [show (0 : Nat) + (smt.depth - 1 - i) = smt.depth - 1 - i by omega] at hbit
    · rw [list_get_reverse_eq l i hi (smt.depth - 1 - i) hj (by omega)]
      rw [hget, show (0 : Nat) + (smt.depth - 1 - i) + 1 = smt.depth - i by omega]

theorem c7_path_structure_amended_witness :
    ((['0', '0'] : List Char).length =
        ((Insert (NewSparseMerkleTree 2) ['0', '0'] (FE.ofInt 5)).getD
          (NewSparseMerkleTree 2)).depth ∧
      lookupLeaf ((Insert (NewSparseMerkleTree 2) ['0', '0'] (FE.ofInt 5)).getD
          (NewSparseMerkleTree 2)).leaves ['0', '0'] = some (FE.ofInt 5)) ∧
    ∃ p, GenerateMerklePath
        ((Insert (NewSparseMerkleTree 2) ['0', '0'] (FE.ofInt 5)).getD
          (NewSparseMerkleTree 2)) ['0', '0'] = some (Except.ok p) ∧
      p.length = ((Insert (NewSparseMerkleTree 2) ['0', '0'] (FE.ofInt 5)).getD
          (NewSparseMerkleTree 2)).depth ∧
      ∀ i (hi : i < p.length), ∃ c b,
        walkTo ['0', '0']
          ((Insert (NewSparseMerkleTree 2) ['0', '0'] (FE.ofInt 5)).getD
            (NewSparseMerkleTree 2)).root 0
          (((Insert (NewSparseMerkleTree 2) ['0', '0'] (FE.ofInt 5)).getD
            (NewSparseMerkleTree 2)).depth - 1 - i) = some c ∧
        getPathBit ['0', '0']
          (((Insert (NewSparseMerkleTree 2) ['0', '0'] (FE.ofInt 5)).getD
            (NewSparseMerkleTree 2)).depth - 1 - i) = some b ∧
        p.get ⟨i, hi⟩ =
          (if b = 0 then
            MerklePathItem.mk ((c.getRightChild
              (((Insert (NewSparseMerkleTree 2) ['0', '0'] (FE.ofInt 5)).getD
                (NewSparseMerkleTree 2)).depth - i)).data) true
           else
            MerklePathItem.mk ((c.getLeftChild
              (((Insert (NewSparseMerkleTree 2) ['0', '0'] (FE.ofInt 5)).getD
                (NewSparseMerkleTree 2)).depth - i)).data) false) :=
  ⟨⟨by decide, by decide⟩,
    c7_path_structure_amended
      ((Insert (NewSparseMerkleTree 2) ['0', '0'] (FE.ofInt 5)).getD
        (NewSparseMerkleTree 2)) ['0', '0'] (FE.ofInt 5)
      (by decide) (by decide)⟩

/-! ### Frame and root-change on insertion (C9) -/

/-- Child of a nilable node pointer. -/
def childL : Option MerkleNode → Option MerkleNode
  | none => none
  | some n => n.left

def childR : Option MerkleNode → Option MerkleNode
  | none => none
  | some n => n.right

/-- The commitment a (possibly virtual) subtree of height `h` contributes
to its parent, as `hashChildren` computes it. -/
def contribOld : Option MerkleNode → Nat → FE
  | none, h => getHashEmptyForDepth h
  | some n, _ => n.data

/-- A node of height `h` is well-formed when every materialized internal
node's commitment is the hash of its children's contributions.  Every tree
built from `NewSparseMerkleTree` by `Insert` satisfies this. -/
def goodN : MerkleNode → Nat → Bool
  | _, 0 => true
  | n, h + 1 =>
    (n.data == FE.hash2 (contribOld n.left h) (contribOld n.right h)) &&
    (match n.left with
      | none => true
      | some l => goodN l h) &&
    (match n.right with
      | none => true
      | some r => goodN r h)

def goodOpt : Option MerkleNode → Nat → Bool
  | none, _ => true
  | some n, h => goodN n h

/-- The commitment currently sitting at the slot addressed by the key:
walk the key's bits for `h` levels through possibly-virtual children and
read the contribution at the end. -/
def slotHash (key : List Char) : Option MerkleNode → Nat → Nat → Option FE
  | o, _, 0 => some (contribOld o 0)
  | o, d, h + 1 =>
    match getPathBit key d with
    | none => none
    | some b =>
      if b = 0 then slotHash key (childL o) (d + 1) h
      else slotHash key (childR o) (d + 1) h

/-- The commitment `insertIntoNode` produces: rebuild the hashes along
the key's path with the new value at the leaf, keeping every off-path
contribution as it was. -/
def newPathHash (key : List Char) (v : FE) :
    Option MerkleNode → Nat → Nat → Option FE
  | _, _, 0 => some v
  | o, d, h + 1 =>
    match getPathBit key d with
    | none => none
    | some b =>
      if b = 0 then
        match newPathHash key v (childL o) (d + 1) h with
        | none => none
        | some x => some (FE.hash2 x (contribOld (childR o) h))
      else
        match newPathHash key v (childR o) (d + 1) h with
        | none => none
        | some x => some (FE.hash2 (contribOld (childL o) h) x)

theorem newPathHash_junk (key : List Char) (v : FE) (d h : Nat) (x : FE) :
    newPathHash key v (some (MerkleNode.node none none x)) d h =
      newPathHash key v none d h := by
  cases h with
  | zero => rfl
  | succ h =>
      simp only [newPathHash, childL, childR, MerkleNode.left, MerkleNode.right]

theorem hashChildren_eq_contrib (L R : Option MerkleNode) (h : Nat) :
    hashChildren L R (h + 1) = FE.hash2 (contribOld L h) (contribOld R h) := by
  cases L <;> cases R <;> simp [hashChildren, contribOld]

theorem getD_right (o : Option MerkleNode) (x : FE) :
    ((o.getD (MerkleNode.node none none x)).right) = childR o := by
  cases o <;> simp [childR, MerkleNode.right, Option.getD]

theorem getD_left (o : Option MerkleNode) (x : FE) :
    ((o.getD (MerkleNode.node none none x)).left) = childL o := by
  cases o <;> simp [childL, MerkleNode.left, Option.getD]

theorem newPathHash_getLeftChild (key : List Char) (v : FE) (d h : Nat)
    (o : Option MerkleNode) (x : FE) :
    newPathHash key v
        (some ((o.getD (MerkleNode.node none none x)).getLeftChild (d + 1)))
        (d + 1) h =
      newPathHash key v (childL o) (d + 1) h := by
  cases o with
  | none =>
      simp [Option.getD, MerkleNode.getLeftChild, MerkleNode.left, childL,
        newPathHash_junk]
  | some n =>
      cases hnl : n.left with
      | none => simp [MerkleNode.getLeftChild, hnl, childL, newPathHash_junk]
      | some l => simp [MerkleNode.getLeftChild, hnl, childL]

theorem newPathHash_getRightChild (key : List Char) (v : FE) (d h : Nat)
    (o : Option MerkleNode) (x : FE) :
    newPathHash key v
        (some ((o.getD (MerkleNode.node none none x)).getRightChild (d + 1)))
        (d + 1) h =
      newPathHash key v (childR o) (d + 1) h := by
  cases o with
  | none =>
      simp [Option.getD, MerkleNode.getRightChild, MerkleNode.right, childR,
        newPathHash_junk]
  | some n =>
      cases hnr : n.right with
      | none => simp [MerkleNode.getRightChild, hnr, childR, newPathHash_junk]
      | some r => simp [MerkleNode.getRightChild, hnr, childR]

/-- The commitment of the node `insertIntoNode` returns is exactly
`newPathHash` (and the panic cases agree). -/
theorem insertIntoNode_data (key : List Char) (v : FE) :
    ∀ (h : Nat) (o : Option MerkleNode) (d : Nat),
      (insertIntoNode key v o d h).map MerkleNode.data =
        newPathHash key v o d h := by
  intro h
  induction h with
  | zero => exact fun o d => rfl
  | succ h ih =>
    intro o d
    cases hgp : getPathBit key d with
    | none => simp [insertIntoNode, newPathHash, hgp]
    | some b =>
      by_cases hb0 : b = 0
      · have hch := newPathHash_getLeftChild key v d h o (getHashEmptyForDepth (h + 1))
        have hrec := ih (some ((o.getD (MerkleNode.node none none
          (getHashEmptyForDepth (h + 1)))).getLeftChild (d + 1))) (d + 1)
        rw [hch] at hrec
        cases hri : insertIntoNode key v
            (some ((o.getD (MerkleNode.node none none
              (getHashEmptyForDepth (h + 1)))).getLeftChild (d + 1)))
            (d + 1) h with
        | none =>
            rw [hri] at hrec
            simp only [insertIntoNode, newPathHash, hgp, hb0, if_true, hri,
              ← hrec]
            rfl
        | some nl =>
            rw [hri] at hrec
            simp only [insertIntoNode, newPathHash, hgp, hb0, if_true, hri,
              ← hrec]
            simp [MerkleNode.data, contribOld, hashChildren_eq_contrib, getD_right]
      · have hch := newPathHash_getRightChild key v d h o (getHashEmptyForDepth (h + 1))
        have hrec := ih (some ((o.getD (MerkleNode.node none none
          (getHashEmptyForDepth (h + 1)))).getRightChild (d + 1))) (d + 1)
        rw [hch] at hrec
        cases hri : insertIntoNode key v
            (some ((o.getD (MerkleNode.node none none
              (getHashEmptyForDepth (h + 1)))).getRightChild (d + 1)))
            (d + 1) h with
        | none =>
            rw [hri] at hrec
            simp only [insertIntoNode, newPathHash, hgp, hb0, if_false, hri,
              ← hrec]
            rfl
        | some nr =>
            rw [hri] at hrec
            simp only [insertIntoNode, newPathHash, hgp, hb0, if_false, hri,
              ← hrec]
            simp [MerkleNode.data, contribOld, hashChildren_eq_contrib, getD_left]

theorem contribOld_succ (o : Option MerkleNode) (h : Nat)
    (hgood : goodOpt o (h + 1) = true) :
    contribOld o (h + 1) =
      FE.hash2 (contribOld (childL o) h) (contribOld (childR o) h) := by
  cases o with
  | none => simp [contribOld, childL, childR, getHashEmptyForDepth_succ]
  | some n =>
      cases n with
      | node l r dt =>
          simp only [goodOpt, goodN, Bool.and_eq_true, beq_iff_eq,
            MerkleNode.left, MerkleNode.right, MerkleNode.data] at hgood
          simpa [contribOld, childL, childR, MerkleNode.left, MerkleNode.right,
            MerkleNode.data] using hgood.1.1

theorem goodOpt_childL (o : Option MerkleNode) (h : Nat)
    (hgood : goodOpt o (h + 1) = true) : goodOpt (childL o) h = true := by
  cases o with
  | none => rfl
  | some n =>
      cases n with
      | node l r dt =>
          simp only [goodOpt, goodN, Bool.and_eq_true, MerkleNode.left,
            MerkleNode.right] at hgood
          cases l with
          | none => rfl
          | some l' => simpa [childL, MerkleNode.left, goodOpt] using hgood.1.2

theorem goodOpt_childR (o : Option MerkleNode) (h : Nat)
    (hgood : goodOpt o (h + 1) = true) : goodOpt (childR o) h = true := by
  cases o with
  | none => rfl
  | some n =>
      cases n with
      | node l r dt =>
          simp only [goodOpt, goodN, Bool.and_eq_true, MerkleNode.left,
            MerkleNode.right] at hgood
          cases r with
          | none => rfl
          | some r' => simpa [childR, MerkleNode.right, goodOpt] using hgood.2

/-- In a well-formed subtree, the rebuilt commitment coincides with the
old one exactly when the new leaf value equals the commitment currently
at the key's slot. -/
theorem newPathHash_eq_contrib_iff (key : List Char) (v : FE) :
    ∀ (h : Nat) (o : Option MerkleNode) (d : Nat) (x : FE),
      goodOpt o h = true →
      newPathHash key v o d h = some x →
      (x = contribOld o h ↔ slotHash key o d h = some v) := by
  intro h
  induction h with
  | zero =>
      intro o d x _ hnew
      have hx : x = v := by
        simpa [newPathHash] using hnew.symm
      rw [hx]
      constructor
      · intro hv
        simp [slotHash, ← hv]
      · intro hs
        have hceq : contribOld o 0 = v := Option.some_inj.mp (by simpa [slotHash] using hs)
        exact hceq.symm
  | succ h ih =>
      intro o d x hgood hnew
      cases hgp : getPathBit key d with
      | none => simp [newPathHash, hgp] at hnew
      | some b =>
        have hco := contribOld_succ o h hgood
        by_cases hb0 : b = 0
        · cases hrec : newPathHash key v (childL o) (d + 1) h with
          | none => simp [newPathHash, hgp, hb0, hrec] at hnew
          | some xl =>
              have hx : x = FE.hash2 xl (contribOld (childR o) h) := by
                simpa [newPathHash, hgp, hb0, hrec] using hnew.symm
              subst hx
              rw [hco]
              have hiff := ih (childL o) (d + 1) xl (goodOpt_childL o h hgood) hrec
              constructor
              · intro heq
                have : xl = contribOld (childL o) h := (FE.hash2.inj heq).1
                simp [slotHash, hgp, hb0, hiff.mp this]
              · intro hs
                have hs' : slotHash key (childL o) (d + 1) h = some v := by
                  simpa [slotHash, hgp, hb0] using hs
                rw [hiff.mpr hs']
        · cases hrec : newPathHash key v (childR o) (d + 1) h with
          | none => simp [newPathHash, hgp, hb0, hrec] at hnew
          | some xr =>
              have hx : x = FE.hash2 (contribOld (childL o) h) xr := by
                simpa [newPathHash, hgp, hb0, hrec] using hnew.symm
              subst hx
              rw [hco]
              have hiff := ih (childR o) (d + 1) xr (goodOpt_childR o h hgood) hrec
              constructor
              · intro heq
                have : xr = contribOld (childR o) h := (FE.hash2.inj heq).2
                simp [slotHash, hgp, hb0, hiff.mp this]
              · intro hs
                have hs' : slotHash key (childR o) (d + 1) h = some v := by
                  simpa [slotHash, hgp, hb0] using hs
                rw [hiff.mpr hs']

/-- C9 (amended): on a well-formed tree, `Insert k1 v1` never changes the
recorded value of any other key `k2 ≠ k1` — but it changes the root
commitment only when `v1` differs from the commitment currently at
`k1`'s slot: the root stays identical when re-inserting an existing key
with its current value, or when inserting `H([0])` into an untouched
slot. -/
theorem c9_frame_and_root_change_amended (smt : SparseMerkleTree)
    (k1 : List Char) (v1 : FE) (t' : SparseMerkleTree)
    (hgood : goodN smt.root smt.depth = true)
    (hins : Insert smt k1 v1 = some t') :
    (∀ k2, k2 ≠ k1 → lookupLeaf t'.leaves k2 = lookupLeaf smt.leaves k2) ∧
    (t'.root.data = smt.root.data ↔
      slotHash k1 (some smt.root) 0 smt.depth = some v1) := by
  unfold Insert at hins
  cases hri : insertIntoNode k1 v1 (some smt.root) 0 smt.depth with
  | none => rw [hri] at hins; exact absurd hins (by simp)
  | some r =>
      rw [hri] at hins
      have ht' : t' = ⟨r, smt.depth, (k1, v1) :: smt.leaves⟩ :=
        (Option.some_inj.mp hins).symm
      subst ht'
      constructor
      · intro k2 hne
        simp [lookupLeaf, hne]
      · have hdata := insertIntoNode_data k1 v1 smt.depth (some smt.root) 0
        rw [hri] at hdata
        have hnew : newPathHash k1 v1 (some smt.root) 0 smt.depth = some r.data :=
          hdata.symm
        have hiff := newPathHash_eq_contrib_iff k1 v1 smt.depth (some smt.root) 0
          r.data (by simpa [goodOpt] using hgood) hnew
        simpa [contribOld] using hiff

theorem c9_frame_and_root_change_amended_witness :
    (goodN ((insertAll (NewSparseMerkleTree 2)
        [(['0', '1'], FE.ofInt 6)]).getD (NewSparseMerkleTree 2)).root
      ((insertAll (NewSparseMerkleTree 2)
        [(['0', '1'], FE.ofInt 6)]).getD (NewSparseMerkleTree 2)).depth = true) ∧
    ((∀ k2, k2 ≠ (['0', '0'] : List Char) →
        lookupLeaf ((Insert ((insertAll (NewSparseMerkleTree 2)
            [(['0', '1'], FE.ofInt 6)]).getD (NewSparseMerkleTree 2))
            ['0', '0'] (FE.ofInt 5)).getD (NewSparseMerkleTree 2)).leaves k2 =
          lookupLeaf ((insertAll (NewSparseMerkleTree 2)
            [(['0', '1'], FE.ofInt 6)]).getD (NewSparseMerkleTree 2)).leaves k2) ∧
      (((Insert ((insertAll (NewSparseMerkleTree 2)
            [(['0', '1'], FE.ofInt 6)]).getD (NewSparseMerkleTree 2))
            ['0', '0'] (FE.ofInt 5)).getD (NewSparseMerkleTree 2)).root.data =
          ((insertAll (NewSparseMerkleTree 2)
            [(['0', '1'], FE.ofInt 6)]).getD (NewSparseMerkleTree 2)).root.data ↔
        slotHash ['0', '0']
          (some ((insertAll (NewSparseMerkleTree 2)
            [(['0', '1'], FE.ofInt 6)]).getD (NewSparseMerkleTree 2)).root) 0
          ((insertAll (NewSparseMerkleTree 2)
            [(['0', '1'], FE.ofInt 6)]).getD (NewSparseMerkleTree 2)).depth =
          some (FE.ofInt 5))) :=
  ⟨by decide,
    c9_frame_and_root_change_amended
      ((insertAll (NewSparseMerkleTree 2)
        [(['0', '1'], FE.ofInt 6)]).getD (NewSparseMerkleTree 2))
      ['0', '0'] (FE.ofInt 5)
      ((Insert ((insertAll (NewSparseMerkleTree 2)
        [(['0', '1'], FE.ofInt 6)]).getD (NewSparseMerkleTree 2))
        ['0', '0'] (FE.ofInt 5)).getD (NewSparseMerkleTree 2))
      (by decide) rfl⟩

/-! ### Order-independence of insertion (C10) -/

/-- The routing direction at one level: `some true` when the path bit
sends the walk left, `some false` when right, `none` on panic. -/
def goLeftBit (key : List Char) (d : Nat) : Option Bool :=
  (getPathBit key d).map (fun b => b == 0)

theorem insertIntoNode_junk (key : List Char) (v : FE) (d h : Nat) (x : FE) :
    insertIntoNode key v (some (MerkleNode.node none none x)) d h =
      insertIntoNode key v none d h := by
  cases h with
  | zero => rfl
  | succ h =>
      simp only [insertIntoNode, Option.getD_some, Option.getD_none,
        MerkleNode.getLeftChild, MerkleNode.getRightChild, MerkleNode.left,
        MerkleNode.right]

/-- Two insertions whose keys route to different sides at some level
within range commute on any starting node. -/
theorem insertIntoNode_comm (k1 k2 : List Char) (v1 v2 : FE) :
    ∀ (r : Nat) (o : Option MerkleNode) (d : Nat),
      (∀ i, i < r → (getPathBit k1 (d + i)).isSome) →
      (∀ i, i < r → (getPathBit k2 (d + i)).isSome) →
      (∃ i, i < r ∧ goLeftBit k1 (d + i) ≠ goLeftBit k2 (d + i)) →
      (insertIntoNode k1 v1 o d r).bind
          (fun n => insertIntoNode k2 v2 (some n) d r) =
        (insertIntoNode k2 v2 o d r).bind
          (fun n => insertIntoNode k1 v1 (some n) d r) := by
  intro r
  induction r with
  | zero =>
      intro o d _ _ hdiff
      obtain ⟨i, hi, _⟩ := hdiff
      omega
  | succ r ih =>
    intro o d hb1s hb2s hdiff
    obtain ⟨b1, hb1⟩ :=
      Option.isSome_iff_exists.mp (by simpa using hb1s 0 (Nat.succ_pos r))
    obtain ⟨b2, hb2⟩ :=
      Option.isSome_iff_exists.mp (by simpa using hb2s 0 (Nat.succ_pos r))
    have hsh1 : ∀ i, i < r → (getPathBit k1 (d + 1 + i)).isSome := fun i hi => by
      have := hb1s (i + 1) (by omega)
      rwa [show d + (i + 1) = d + 1 + i by omega] at this
    have hsh2 : ∀ i, i < r → (getPathBit k2 (d + 1 + i)).isSome := fun i hi => by
      have := hb2s (i + 1) (by omega)
      rwa [show d + (i + 1) = d + 1 + i by omega] at this
    set n : MerkleNode :=
      o.getD (.node none none (getHashEmptyForDepth (r + 1))) with hn
    by_cases hside : (b1 == 0) = (b2 == 0)
    · -- both keys route to the same side at this level, so the level of
      -- divergence is deeper
      have hdiff' : ∃ j, j < r ∧
          goLeftBit k1 (d + 1 + j) ≠ goLeftBit k2 (d + 1 + j) := by
        obtain ⟨i, hi, hne⟩ := hdiff
        cases i with
        | zero =>
            exact absurd (by simp [goLeftBit, show d + 0 = d from rfl, hb1, hb2, hside]) hne
        | succ j =>
            exact ⟨j, by omega, by rwa [show d + 1 + j = d + (j + 1) by omega]⟩
      by_cases hb10 : b1 = 0
      · have hb20 : b2 = 0 := by
          rw [hb10] at hside
          simpa using hside.symm
        obtain ⟨nl1, hins1, _⟩ :=
          insertIntoNode_follow k1 v1 r (some (n.getLeftChild (d + 1))) (d + 1) hsh1
        obtain ⟨nl2, hins2, _⟩ :=
          insertIntoNode_follow k2 v2 r (some (n.getLeftChild (d + 1))) (d + 1) hsh2
        obtain ⟨nl12, hins12, _⟩ :=
          insertIntoNode_follow k2 v2 r (some nl1) (d + 1) hsh2
        obtain ⟨nl21, hins21, _⟩ :=
          insertIntoNode_follow k1 v1 r (some nl2) (d + 1) hsh1
        have hIH := ih (some (n.getLeftChild (d + 1))) (d + 1) hsh1 hsh2 hdiff'
        rw [hins1, hins2] at hIH
        simp only [Option.some_bind] at hIH
        rw [hins12, hins21] at hIH
        have hval : nl12 = nl21 := Option.some_inj.mp hIH
        have e1 : insertIntoNode k1 v1 o d (r + 1) =
            some (.node (some nl1) n.right
              (hashChildren (some nl1) n.right (r + 1))) := by
          simp only [insertIntoNode, hb1, hb10, ← hn, hins1, if_true]
        have e2 : insertIntoNode k2 v2
            (some (MerkleNode.node (some nl1) n.right
              (hashChildren (some nl1) n.right (r + 1)))) d (r + 1) =
            some (.node (some nl12) n.right
              (hashChildren (some nl12) n.right (r + 1))) := by
          simp only [insertIntoNode, hb2, hb20, Option.getD_some,
            MerkleNode.getLeftChild, MerkleNode.left_mk, MerkleNode.right_mk,
            hins12, if_true]
        have e3 : insertIntoNode k2 v2 o d (r + 1) =
            some (.node (some nl2) n.right
              (hashChildren (some nl2) n.right (r + 1))) := by
          simp only [insertIntoNode, hb2, hb20, ← hn, hins2, if_true]
        have e4 : insertIntoNode k1 v1
            (some (MerkleNode.node (some nl2) n.right
              (hashChildren (some nl2) n.right (r + 1)))) d (r + 1) =
            some (.node (some nl21) n.right
              (hashChildren (some nl21) n.right (r + 1))) := by
          simp only [insertIntoNode, hb1, hb10, Option.getD_some,
            MerkleNode.getLeftChild, MerkleNode.left_mk, MerkleNode.right_mk,
            hins21, if_true]
        rw [e1, e3]
        simp only [Option.some_bind]
        rw [e2, e4, hval]
      · have hb20 : ¬ b2 = 0 := by
          intro h
          rw [h] at hside
          simp only [beq_self_eq_true] at hside
          exact hb10 (by simpa using hside)
        obtain ⟨nr1, hins1, _⟩ :=
          insertIntoNode_follow k1 v1 r (some (n.getRightChild (d + 1))) (d + 1) hsh1
        obtain ⟨nr2, hins2, _⟩ :=
          insertIntoNode_follow k2 v2 r (some (n.getRightChild (d + 1))) (d + 1) hsh2
        obtain ⟨nr12, hins12, _⟩ :=
          insertIntoNode_follow k2 v2 r (some nr1) (d + 1) hsh2
        obtain ⟨nr21, hins21, _⟩ :=
          insertIntoNode_follow k1 v1 r (some nr2) (d + 1) hsh1
        have hIH := ih (some (n.getRightChild (d + 1))) (d + 1) hsh1 hsh2 hdiff'
        rw [hins1, hins2] at hIH
        simp only [Option.some_bind] at hIH
        rw [hins12, hins21] at hIH
        have hval : nr12 = nr21 := Option.some_inj.mp hIH
        have e1 : insertIntoNode k1 v1 o d (r + 1) =
            some (.node n.left (some nr1)
              (hashChildren n.left (some nr1) (r + 1))) := by
          simp only [insertIntoNode, hb1, hb10, ← hn, hins1, if_false]
        have e2 : insertIntoNode k2 v2
            (some (MerkleNode.node n.left (some nr1)
              (hashChildren n.left (some nr1) (r + 1)))) d (r + 1) =
            some (.node n.left (some nr12)
              (hashChildren n.left (some nr12) (r + 1))) := by
          simp only [insertIntoNode, hb2, hb20, Option.getD_some,
            MerkleNode.getRightChild, MerkleNode.left_mk, MerkleNode.right_mk,
            hins12, if_false]
        have e3 : insertIntoNode k2 v2 o d (r + 1) =
            some (.node n.left (some nr2)
              (hashChildren n.left (some nr2) (r + 1))) := by
          simp only [insertIntoNode, hb2, hb20, ← hn, hins2, if_false]
        have e4 : insertIntoNode k1 v1
            (some (MerkleNode.node n.left (some nr2)
              (hashChildren n.left (some nr2) (r + 1)))) d (r + 1) =
            some (.node n.left (some nr21)
              (hashChildren n.left (some nr21) (r + 1))) := by
          simp only [insertIntoNode, hb1, hb10, Option.getD_some,
            MerkleNode.getRightChild, MerkleNode.left_mk, MerkleNode.right_mk,
            hins21, if_false]
        rw [e1, e3]
        simp only [Option.some_bind]
        rw [e2, e4, hval]
    · -- the two keys part ways at this very level
      by_cases hb10 : b1 = 0
      · have hb20 : ¬ b2 = 0 := by
          intro h
          exact hside (by rw [hb10, h])
        obtain ⟨nl1, hins1, _⟩ :=
          insertIntoNode_follow k1 v1 r (some (n.getLeftChild (d + 1))) (d + 1) hsh1
        obtain ⟨nr2, hins2, _⟩ :=
          insertIntoNode_follow k2 v2 r (some (n.getRightChild (d + 1))) (d + 1) hsh2
        have e1 : insertIntoNode k1 v1 o d (r + 1) =
            some (.node (some nl1) n.right
              (hashChildren (some nl1) n.right (r + 1))) := by
          simp only [insertIntoNode, hb1, hb10, ← hn, hins1, if_true]
        have e2 : insertIntoNode k2 v2
            (some (MerkleNode.node (some nl1) n.right
              (hashChildren (some nl1) n.right (r + 1)))) d (r + 1) =
            some (.node (some nl1) (some nr2)
              (hashChildren (some nl1) (some nr2) (r + 1))) := by
          have hr : (MerkleNode.node (some nl1) n.right
              (hashChildren (some nl1) n.right (r + 1))).getRightChild (d + 1) =
              n.getRightChild (d + 1) := by
            simp [MerkleNode.getRightChild, MerkleNode.right_mk]
          simp only [insertIntoNode, hb2, hb20, Option.getD_some, hr,
            MerkleNode.left_mk, MerkleNode.right_mk, hins2, if_false]
        have e3 : insertIntoNode k2 v2 o d (r + 1) =
            some (.node n.left (some nr2)
              (hashChildren n.left (some nr2) (r + 1))) := by
          simp only [insertIntoNode, hb2, hb20, ← hn, hins2, if_false]
        have e4 : insertIntoNode k1 v1
            (some (MerkleNode.node n.left (some nr2)
              (hashChildren n.left (some nr2) (r + 1)))) d (r + 1) =
            some (.node (some nl1) (some nr2)
              (hashChildren (some nl1) (some nr2) (r + 1))) := by
          have hl : (MerkleNode.node n.left (some nr2)
              (hashChildren n.left (some nr2) (r + 1))).getLeftChild (d + 1) =
              n.getLeftChild (d + 1) := by
            simp [MerkleNode.getLeftChild, MerkleNode.left_mk]
          simp only [insertIntoNode, hb1, hb10, Option.getD_some, hl,
            MerkleNode.left_mk, MerkleNode.right_mk, hins1, if_true]
        rw [e1, e3]
        simp only [Option.some_bind]
        rw [e2, e4]
      · have hb20 : b2 = 0 := by
          by_contra h
          exact hside (by
            rw [beq_eq_false_iff_ne.mpr hb10, beq_eq_false_iff_ne.mpr h])
        obtain ⟨nr1, hins1, _⟩ :=
          insertIntoNode_follow k1 v1 r (some (n.getRightChild (d + 1))) (d + 1) hsh1
        obtain ⟨nl2, hins2, _⟩ :=
          insertIntoNode_follow k2 v2 r (some (n.getLeftChild (d + 1))) (d + 1) hsh2
        have e1 : insertIntoNode k1 v1 o d (r + 1) =
            some (.node n.left (some nr1)
              (hashChildren n.left (some nr1) (r + 1))) := by
          simp only [insertIntoNode, hb1, hb10, ← hn, hins1, if_false]
        have e2 : insertIntoNode k2 v2
            (some (MerkleNode.node n.left (some nr1)
              (hashChildren n.left (some nr1) (r + 1)))) d (r + 1) =
            some (.node (some nl2) (some nr1)
              (hashChildren (some nl2) (some nr1) (r + 1))) := by
          have hl : (MerkleNode.node n.left (some nr1)
              (hashChildren n.left (some nr1) (r + 1))).getLeftChild (d + 1) =
              n.getLeftChild (d + 1) := by
            simp [MerkleNode.getLeftChild, MerkleNode.left_mk]
          simp only [insertIntoNode, hb2, hb20, Option.getD_some, hl,
            MerkleNode.left_mk, MerkleNode.right_mk, hins2, if_true]
        have e3 : insertIntoNode k2 v2 o d (r + 1) =
            some (.node (some nl2) n.right
              (hashChildren (some nl2) n.right (r + 1))) := by
          simp only [insertIntoNode, hb2, hb20, ← hn, hins2, if_true]
        have e4 : insertIntoNode k1 v1
            (some (MerkleNode.node (some nl2) n.right
              (hashChildren (some nl2) n.right (r + 1)))) d (r + 1) =
            some (.node (some nl2) (some nr1)
              (hashChildren (some nl2) (some nr1) (r + 1))) := by
          have hr : (MerkleNode.node (some nl2) n.right
              (hashChildren (some nl2) n.right (r + 1))).getRightChild (d + 1) =
              n.getRightChild (d + 1) := by
            simp [MerkleNode.getRightChild, MerkleNode.right_mk]
          simp only [insertIntoNode, hb1, hb10, Option.getD_some, hr,
            MerkleNode.left_mk, MerkleNode.right_mk, hins1, if_false]
        rw [e1, e3]
        simp only [Option.some_bind]
        rw [e2, e4]

/-- C10: for distinct binary keys of the tree's depth, insertion order
does not matter: both orders succeed, produce the same root commitment,
and record the same key-to-value mapping. -/
theorem c10_insert_comm (smt : SparseMerkleTree) (k1 k2 : List Char)
    (v1 v2 : FE) (h1len : k1.length = smt.depth) (h2len : k2.length = smt.depth)
    (h1bin : ∀ c ∈ k1, c = '0' ∨ c = '1') (h2bin : ∀ c ∈ k2, c = '0' ∨ c = '1')
    (hne : k1 ≠ k2) :
    ∃ t12 t21,
      (Insert smt k1 v1).bind (fun t => Insert t k2 v2) = some t12 ∧
      (Insert smt k2 v2).bind (fun t => Insert t k1 v1) = some t21 ∧
      t12.root.data = t21.root.data ∧
      ∀ k, lookupLeaf t12.leaves k = lookupLeaf t21.leaves k := by
  have hb1s : ∀ i, i < smt.depth → (getPathBit k1 (0 + i)).isSome := by
    intro i hi
    rw [getPathBit_of_lt k1 (0 + i) (by omega)]
    exact rfl
  have hb2s : ∀ i, i < smt.depth → (getPathBit k2 (0 + i)).isSome := by
    intro i hi
    rw [getPathBit_of_lt k2 (0 + i) (by omega)]
    exact rfl
  have hex : ∃ i, ∃ (hi1 : i < k1.length) (hi2 : i < k2.length),
      k1.get ⟨i, hi1⟩ ≠ k2.get ⟨i, hi2⟩ := by
    by_contra hall
    push_neg at hall
    exact hne (List.ext_get (by rw [h1len, h2len]) hall)
  have hdiff : ∃ i, i < smt.depth ∧ goLeftBit k1 (0 + i) ≠ goLeftBit k2 (0 + i) := by
    obtain ⟨i, hi1, hi2, hcne⟩ := hex
    refine ⟨i, by omega, ?_⟩
    rw [show (0 : Nat) + i = i from by omega]
    unfold goLeftBit
    rw [getPathBit_of_lt k1 i hi1, getPathBit_of_lt k2 i hi2]
    rcases h1bin (k1.get ⟨i, hi1⟩) (k1.get_mem i hi1) with hc1 | hc1 <;>
      rcases h2bin (k2.get ⟨i, hi2⟩) (k2.get_mem i hi2) with hc2 | hc2 <;>
      first
        | exact absurd (hc1.trans hc2.symm) hcne
        | (rw [hc1, hc2]; decide)
  obtain ⟨r1, hr1, _⟩ :=
    insertIntoNode_follow k1 v1 smt.depth (some smt.root) 0 hb1s
  obtain ⟨r2, hr2, _⟩ :=
    insertIntoNode_follow k2 v2 smt.depth (some smt.root) 0 hb2s
  obtain ⟨r12, hr12, _⟩ :=
    insertIntoNode_follow k2 v2 smt.depth (some r1) 0 hb2s
  obtain ⟨r21, hr21, _⟩ :=
    insertIntoNode_follow k1 v1 smt.depth (some r2) 0 hb1s
  have hcomm :=
    insertIntoNode_comm k1 k2 v1 v2 smt.depth (some smt.root) 0 hb1s hb2s hdiff
  rw [hr1, hr2] at hcomm
  simp only [Option.some_bind] at hcomm
  rw [hr12, hr21] at hcomm
  have hval : r12 = r21 := Option.some_inj.mp hcomm
  refine ⟨⟨r12, smt.depth, (k2, v2) :: (k1, v1) :: smt.leaves⟩,
    ⟨r21, smt.depth, (k1, v1) :: (k2, v2) :: smt.leaves⟩, ?_, ?_, ?_, ?_⟩
  · simp only [Insert, hr1, Option.some_bind, hr12]
  · simp only [Insert, hr2, Option.some_bind, hr21]
  · simpa using congrArg MerkleNode.data hval
  · intro k
    by_cases hk2 : k = k2 <;> by_cases hk1 : k = k1
    · exact absurd (hk1.symm.trans hk2) hne
    · simp [lookupLeaf, hk1, hk2, Ne.symm hne]
    · simp [lookupLeaf, hk1, hk2, hne]
    · simp [lookupLeaf, hk1, hk2]

theorem c10_insert_comm_witness :
    ((['0', '1'] : List Char).length = (NewSparseMerkleTree 2).depth ∧
      (['1', '0'] : List Char).length = (NewSparseMerkleTree 2).depth ∧
      (∀ c ∈ (['0', '1'] : List Char), c = '0' ∨ c = '1') ∧
      (∀ c ∈ (['1', '0'] : List Char), c = '0' ∨ c = '1') ∧
      (['0', '1'] : List Char) ≠ ['1', '0']) ∧
    ∃ t12 t21,
      (Insert (NewSparseMerkleTree 2) ['0', '1'] (FE.ofInt 1)).bind
          (fun t => Insert t ['1', '0'] (FE.ofInt 2)) = some t12 ∧
      (Insert (NewSparseMerkleTree 2) ['1', '0'] (FE.ofInt 2)).bind
          (fun t => Insert t ['0', '1'] (FE.ofInt 1)) = some t21 ∧
      t12.root.data = t21.root.data ∧
      ∀ k, lookupLeaf t12.leaves k = lookupLeaf t21.leaves k :=
  ⟨⟨by decide, by decide, by decide, by decide, by decide⟩,
    c10_insert_comm (NewSparseMerkleTree 2) ['0', '1'] ['1', '0']
      (FE.ofInt 1) (FE.ofInt 2) (by decide) (by decide) (by decide) (by decide)
      (by decide)⟩

end SMT
